import Mathlib

/-!
# Verification of the vegepoly polygon sampler and WKT parser

Shallow embedding of the core of the `vegepoly` repository
(`src-tauri/src/utils.rs`, `src-tauri/src/sampling.rs`,
`src-tauri/src/processing.rs`) and proofs about it.

Conventions of the embedding:
* Rust `f64` values are modelled as exact rationals (`ℚ`).  The constant
  `std::f64::consts::SQRT_2` is modelled by the exact rational value of the
  IEEE-754 double nearest to `√2`, namely `6369051672525773 / 2^52`; the
  division `min_distance / SQRT_2` is exact in `ℚ` where the Rust code
  rounds to the nearest double.  All concrete inputs used below are far
  from any rounding boundary.
* Rust strings are modelled as `List Char` (byte-for-byte faithful on the
  ASCII inputs that appear in the claims).
* Rust `as usize` on a nonnegative float is `Int.toNat ∘ Int.floor`
  (truncation; Rust saturates negatives to `0`, which `Int.toNat` also does).
* The `rand` crate is external to the repository: random draws are modelled
  as an injected family of draws (`Rng`), so theorems quantify over every
  possible random sequence.  Calls to `f64::cos`/`f64::sin` on a random
  angle are modelled by an injected direction pair `(cos θ, sin θ)`.
-/

namespace Vegepoly

/-- Strings are modelled as lists of characters (bytes, for ASCII input). -/
abbrev Str := List Char

/-- A point `(x, y)`; models `geo::Point<f64>` / `geo::Coord<f64>`. -/
abbrev Pt := ℚ × ℚ

/-! ## String helpers modelling Rust `str` methods -/

/-- Helper for `findSub?`: first index `≥ i` at which `pat` occurs. -/
def findSubAux (pat : Str) : Str → ℕ → Option ℕ
  | [], i => if pat = [] then some i else none
  | c :: rest, i =>
    if pat.isPrefixOf (c :: rest) then some i else findSubAux pat rest (i + 1)

/-- Models Rust `str::find(pat)`: index of the first occurrence of `pat`. -/
def findSub? (pat s : Str) : Option ℕ := findSubAux pat s 0

/-- Models Rust `str::contains(pat)`. -/
def containsSub (pat s : Str) : Bool := (findSub? pat s).isSome

/-- Models Rust `str::rfind(pat)`: index of the last occurrence of `pat`. -/
def rfindSub? (pat s : Str) : Option ℕ :=
  ((List.range (s.length + 1)).filter (fun i => pat.isPrefixOf (s.drop i))).getLast?

/-- Fuel-indexed worker for `replaceAll` (structural recursion so that the
kernel can evaluate it; the fuel `s.length` always suffices because every
step consumes at least one character). -/
def replaceAllFuel (pat rep : Str) : ℕ → Str → Str
  | 0, s => s
  | _ + 1, [] => []
  | fuel + 1, c :: rest =>
    if pat ≠ [] ∧ pat.isPrefixOf (c :: rest) then
      rep ++ replaceAllFuel pat rep fuel ((c :: rest).drop pat.length)
    else
      c :: replaceAllFuel pat rep fuel rest

/-- Models Rust `str::replace(pat, rep)`: replaces every non-overlapping
occurrence of `pat`, left to right, not rescanning the replacement text. -/
def replaceAll (pat rep s : Str) : Str := replaceAllFuel pat rep s.length s

/-- Fuel-indexed worker for `splitOnSub`; the fuel `s.length + 1` always
suffices (every recursive step consumes at least one character). -/
def splitOnSubFuel (pat : Str) : ℕ → Str → List Str
  | 0, s => [s]
  | fuel + 1, s =>
    if pat = [] then [s]
    else
      match findSub? pat s with
      | none => [s]
      | some i => s.take i :: splitOnSubFuel pat fuel (s.drop (i + pat.length))

/-- Models Rust `str::split(pat)` (keeps empty pieces). -/
def splitOnSub (pat s : Str) : List Str := splitOnSubFuel pat (s.length + 1) s

/-- Models Rust `str::trim` (ASCII inputs: same whitespace set). -/
def trimStr (s : Str) : Str :=
  (s.dropWhile Char.isWhitespace).reverse.dropWhile Char.isWhitespace |>.reverse

/-- Models Rust `str::split_whitespace`: split on whitespace runs, no empties. -/
def splitWhitespaceStr (s : Str) : List Str :=
  (List.splitOnP Char.isWhitespace s).filter (fun t => t ≠ [])

/-! ## Number parsing

Models Rust `str::parse::<f64>()` for finite decimal literals with optional
sign, decimal point and exponent.  The numeric value is the exact rational
denoted by the literal (the Rust code rounds to the nearest double); the
non-finite spellings `inf`/`NaN` are not modelled.  What matters for the
claims is which strings parse at all and the exact values of short literals,
and on those this model agrees with Rust. -/

/-- Value of a digit list read most-significant first. -/
def digitsVal : Str → ℕ → ℕ
  | [], acc => acc
  | c :: rest, acc => digitsVal rest (acc * 10 + (c.toNat - 48))

/-- All characters are decimal digits. -/
def allDigits (s : Str) : Bool := s.all Char.isDigit

/-- Parse an optionally-signed run of digits (used for exponents). -/
def parseSignedInt? (s : Str) : Option ℤ :=
  match s with
  | '+' :: rest => if rest ≠ [] ∧ allDigits rest then some (digitsVal rest 0) else none
  | '-' :: rest => if rest ≠ [] ∧ allDigits rest then some (-(digitsVal rest 0 : ℤ)) else none
  | _ => if s ≠ [] ∧ allDigits s then some (digitsVal s 0) else none

/-- Parse the unsigned mantissa `digits[.digits]` (at least one digit). -/
def parseMantissa? (s : Str) : Option ℚ :=
  match splitOnSub ['.'] s with
  | [ip] =>
    if ip ≠ [] ∧ allDigits ip then some (digitsVal ip 0 : ℚ) else none
  | [ip, fp] =>
    if (ip ≠ [] ∨ fp ≠ []) ∧ allDigits ip ∧ allDigits fp then
      some ((digitsVal ip 0 : ℚ) + (digitsVal fp 0 : ℚ) / 10 ^ fp.length)
    else none
  | _ => none

/-- Models `str::parse::<f64>()` on finite decimal literals (exact value). -/
def parseFloat? (s : Str) : Option ℚ :=
  let (sign, body) : ℚ × Str :=
    match s with
    | '+' :: rest => (1, rest)
    | '-' :: rest => (-1, rest)
    | _ => (1, s)
  match splitOnSub ['e'] (body.map Char.toLower) with
  | [m] => (parseMantissa? m).map (fun q => sign * q)
  | [m, e] =>
    match parseMantissa? m, parseSignedInt? e with
    | some q, some ex => some (sign * q * 10 ^ ex)
    | _, _ => none
  | _ => none

/-! ## WKT parser model (`src-tauri/src/utils.rs`)

The Rust parser reports errors as boxed strings; the spec names the three
kinds `UnsupportedGeometry`, `MalformedGeometry`, `EmptyGeometry`.  We map
the error strings of the source to those constructors:
`"Impossible : MULTIPOLYGON Ligne : _"` ↦ `UnsupportedGeometry`,
`"Invalid format"` / `"Impossible : Problème(3) Ligne : _"` ↦
`MalformedGeometry`, `"Empty polygon"` ↦ `EmptyGeometry`. -/

inductive GeometryError where
  | UnsupportedGeometry
  | MalformedGeometry
  | EmptyGeometry
deriving DecidableEq, Repr

instance {ε α : Type} [DecidableEq ε] [DecidableEq α] : DecidableEq (Except ε α) := fun x y =>
  match x, y with
  | .ok a, .ok b =>
    if h : a = b then isTrue (by rw [h]) else isFalse (fun hc => h (Except.ok.inj hc))
  | .error a, .error b =>
    if h : a = b then isTrue (by rw [h]) else isFalse (fun hc => h (Except.error.inj hc))
  | .ok _, .error _ => isFalse (fun hc => Except.noConfusion hc)
  | .error _, .ok _ => isFalse (fun hc => Except.noConfusion hc)

/-- A polygon: exterior ring only (the source always passes `vec![]` holes). -/
abbrev Ring := List Pt

/-- Ring closure step shared by both strategies (`utils.rs:121-123,173-175`):
if there are at least two coordinates and the first differs from the last,
append the first coordinate. -/
def closeRing (coords : List Pt) : List Pt :=
  if 1 < coords.length ∧ coords.getD 0 (0, 0) ≠ coords.getLastD (0, 0) then
    coords ++ [coords.getD 0 (0, 0)]
  else coords

/-- `utils.rs:48-73` `transform_polygon_string`: rewrite the WKT literal into
the bracketed tuple-list form consumed by `extract_polygon_from_string`. -/
def transform_polygon_string (s : Str) : Str :=
  let r0 := s
  let r1 := if containsSub ("POLYGON((".toList) r0 then
      replaceAll ("POLYGON((".toList) ("Polygon([(".toList) r0
    else r0
  let r2 := if containsSub ("MULTIPOLYGON((".toList) r1 then
      replaceAll ("MULTIPOLYGON((".toList) ("Polygon([(".toList) r1
    else r1
  let r3 := replaceAll ("))".toList) (")])".toList) r2
  let r4 := replaceAll ("))".toList) (")])".toList) r3
  let r5 := replaceAll (",".toList) ("),(".toList) r4
  let r6 := replaceAll (" ".toList) (",".toList) r5
  -- truncate after the second `)])` marker, if present
  match findSub? (")])".toList) r6 with
  | none => r6
  | some idx =>
    match findSub? (")])".toList) (r6.drop (idx + 3)) with
    | none => r6
    | some rest => r6.take (idx + 3 + rest + 3)

/-- One coordinate pair of the fast path (`utils.rs:100-112`): split on `','`,
demand exactly two parts, parse both after trimming. -/
def extractPair? (pair : Str) : Option Pt :=
  match splitOnSub (",".toList) pair with
  | [a, b] =>
    match parseFloat? (trimStr a), parseFloat? (trimStr b) with
    | some x, some y => some (x, y)
    | _, _ => none
  | _ => none

/-- The coordinates the fast path reads from the transformed string, before
ring closure (`utils.rs:89-113`); `none` when any pair fails (Rust
`return None`). -/
def extractCoords? (s : Str) : Option (List Pt) :=
  let start := (findSub? ("Polygon([(".toList) s).getD 0 + ("Polygon([(".toList).length
  let stop := (rfindSub? (")])".toList) s).getD s.length
  if start ≥ stop then none
  else
    let inner := (s.take stop).drop start
    (splitOnSub ("),(".toList) inner).mapM extractPair?

/-- `utils.rs:82-126` `extract_polygon_from_string`. -/
def extract_polygon_from_string (s : Str) : Option Ring :=
  if ¬ containsSub ("Polygon([(".toList) s then none
  else
    match extractCoords? s with
    | none => none
    | some coords => if coords.isEmpty then none else some (closeRing coords)

/-- The coordinate list the fallback parser accumulates before ring closure
(`utils.rs:152-165`): split the cleaned string on `','`, split each token on
whitespace, keep the pairs whose two parts parse as floats; malformed tokens
are skipped (the source prints a warning and continues). -/
def wktCoords (s : Str) : List Pt :=
  let cleaned0 :=
    if containsSub ("POLYGON((".toList) s then
      replaceAll ("POLYGON((".toList) [] s
    else if containsSub ("MULTIPOLYGON((".toList) s then
      replaceAll ("MULTIPOLYGON((".toList) [] s
    else s
  let cleaned := replaceAll ("))".toList) [] cleaned0
  (splitOnSub (",".toList) cleaned).filterMap (fun tok =>
    match splitWhitespaceStr tok with
    | [a, b] =>
      match parseFloat? a, parseFloat? b with
      | some x, some y => some (x, y)
      | _, _ => none
    | _ => none)

/-- The format precondition of `parse_polygon_wkt` (`utils.rs:139`). -/
def wktFormatOk (s : Str) : Bool :=
  containsSub ("POLYGON((".toList) s || containsSub ("MULTIPOLYGON((".toList) s

/-- `utils.rs:135-178` `parse_polygon_wkt` (fallback strategy). -/
def parse_polygon_wkt (s : Str) : Except GeometryError Ring :=
  if ¬ wktFormatOk s then .error .MalformedGeometry
  else if (wktCoords s).isEmpty then .error .EmptyGeometry
  else .ok (closeRing (wktCoords s))

/-- `processing.rs:189-203`: the geometry-ingestion part of
`distribute_points_in_polygon` — format check, MULTIPOLYGON rejection, fast
path via `transform_polygon_string`/`extract_polygon_from_string`, fallback
via `parse_polygon_wkt`. -/
def parse_geometry (s : Str) : Except GeometryError Ring :=
  if ¬ (containsSub ("POLYGON((".toList) s || containsSub ("MULTIPOLYGON((".toList) s) then
    .error .MalformedGeometry
  else if containsSub ("MULTIPOLYGON".toList) s then
    .error .UnsupportedGeometry
  else
    match extract_polygon_from_string (transform_polygon_string s) with
    | some ring => .ok ring
    | none => parse_polygon_wkt s

/-! ## Parser theorems (claims C4, C6, C7) -/

/-- Shared helper: the closure step appends the first coordinate whenever the
ring has at least two coordinates and the first differs from the last. -/
theorem closeRing_eq_append (cs : List Pt) (h2 : 2 ≤ cs.length)
    (hne : cs.getD 0 (0, 0) ≠ cs.getLastD (0, 0)) :
    closeRing cs = cs ++ [cs.getD 0 (0, 0)] := by
  unfold closeRing
  rw [if_pos ⟨by omega, hne⟩]

/-- Shared helper: a list of length at least two is not empty. -/
theorem isEmpty_false_of_two_le {α : Type} (l : List α) (h : 2 ≤ l.length) :
    l.isEmpty = false := by
  cases l with
  | nil => simp at h
  | cons a t => rfl

/-- **C4 counterexample.** The input `"MULTIPOLYGON"` (which contains
`MULTIPOLYGON` but no `POLYGON((` literal) is rejected by the format check of
`distribute_points_in_polygon` first, so it fails with the *malformed* error
(`"Impossible : Problème(3) …"`), not with `UnsupportedGeometry` as the claim
states. -/
theorem claim_c4_counterexample :
    containsSub ("MULTIPOLYGON".toList) ("MULTIPOLYGON".toList) = true ∧
    parse_geometry ("MULTIPOLYGON".toList) = .error .MalformedGeometry ∧
    parse_geometry ("MULTIPOLYGON".toList) ≠ .error .UnsupportedGeometry := by
  decide

/-- **C4 (amended).** Every input containing `"MULTIPOLYGON"` fails — it is
never parsed into a polygon.  When the input also contains a double-paren
literal (`"POLYGON(("` or `"MULTIPOLYGON(("`), the failure is the
`UnsupportedGeometry` error; otherwise it is the earlier `MalformedGeometry`
format error (`processing.rs:190-195`). -/
theorem claim_c4_multipolygon_rejected (s : Str)
    (h : containsSub ("MULTIPOLYGON".toList) s = true) :
    (parse_geometry s = .error .UnsupportedGeometry ∨
      parse_geometry s = .error .MalformedGeometry) ∧
    ((containsSub ("POLYGON((".toList) s || containsSub ("MULTIPOLYGON((".toList) s) = true →
      parse_geometry s = .error .UnsupportedGeometry) ∧
    (∀ r : Ring, parse_geometry s ≠ .ok r) := by
  unfold parse_geometry
  by_cases hfmt :
      (containsSub ("POLYGON((".toList) s || containsSub ("MULTIPOLYGON((".toList) s) = true
  · rw [if_neg (not_not_intro hfmt), if_pos h]
    exact ⟨Or.inl rfl, fun _ => rfl, fun r hr => Except.noConfusion hr⟩
  · rw [if_pos hfmt]
    exact ⟨Or.inr rfl, fun hcontra => absurd hcontra hfmt, fun r hr => Except.noConfusion hr⟩

/-- **C4 witness.** The spec's own test input, which does contain the
double-paren literal, fails with `UnsupportedGeometry`. -/
theorem claim_c4_witness :
    parse_geometry ("MULTIPOLYGON(((0 0,1 0,1 1,0 1,0 0)))".toList) =
      .error .UnsupportedGeometry :=
  (claim_c4_multipolygon_rejected ("MULTIPOLYGON(((0 0,1 0,1 1,0 1,0 0)))".toList)
    (by decide)).2.1 (by decide)

unseal Rat.add Rat.mul Rat.sub Rat.inv in
/-- **C6.** In both parse strategies, a parsed coordinate ring with at least
two coordinates whose first coordinate differs from its last is closed by
appending the first coordinate; in particular the unclosed square parses to
the 5-coordinate closed square ring and the closed square parses to exactly
that ring.  The last conjunct exercises the fast (bracket-rewriting) path on
its own. -/
theorem claim_c6_ring_closure :
    (∀ s : Str, wktFormatOk s = true → 2 ≤ (wktCoords s).length →
        (wktCoords s).getD 0 (0, 0) ≠ (wktCoords s).getLastD (0, 0) →
        parse_polygon_wkt s = .ok (wktCoords s ++ [(wktCoords s).getD 0 (0, 0)])) ∧
    (∀ (s : Str) (cs : List Pt), containsSub ("Polygon([(".toList) s = true →
        extractCoords? s = some cs → 2 ≤ cs.length →
        cs.getD 0 (0, 0) ≠ cs.getLastD (0, 0) →
        extract_polygon_from_string s = some (cs ++ [cs.getD 0 (0, 0)])) ∧
    parse_geometry ("POLYGON((0 0, 10 0, 10 10, 0 10))".toList) =
      .ok [(0, 0), (10, 0), (10, 10), (0, 10), (0, 0)] ∧
    parse_geometry ("POLYGON((0 0, 10 0, 10 10, 0 10, 0 0))".toList) =
      .ok [(0, 0), (10, 0), (10, 10), (0, 10), (0, 0)] ∧
    extract_polygon_from_string
        (transform_polygon_string ("POLYGON((0 0,10 0,10 10,0 10))".toList)) =
      some [(0, 0), (10, 0), (10, 10), (0, 10), (0, 0)] := by
  refine ⟨?_, ?_, by decide, by decide, by decide⟩
  · intro s hfmt h2 hne
    unfold parse_polygon_wkt
    rw [if_neg (not_not_intro hfmt), if_neg (by rw [isEmpty_false_of_two_le _ h2]; decide),
      closeRing_eq_append _ h2 hne]
  · intro s cs hc hext h2 hne
    unfold extract_polygon_from_string
    rw [if_neg (not_not_intro hc)]
    simp only [hext]
    rw [if_neg (by rw [isEmpty_false_of_two_le _ h2]; decide), closeRing_eq_append _ h2 hne]

unseal Rat.add Rat.mul Rat.sub Rat.inv in
/-- **C6 witness.** The general closure statement applied to the concrete
unclosed square input. -/
theorem claim_c6_witness :
    parse_polygon_wkt ("POLYGON((0 0, 10 0, 10 10, 0 10))".toList) =
      .ok (wktCoords ("POLYGON((0 0, 10 0, 10 10, 0 10))".toList) ++
        [(wktCoords ("POLYGON((0 0, 10 0, 10 10, 0 10))".toList)).getD 0 (0, 0)]) :=
  claim_c6_ring_closure.1 ("POLYGON((0 0, 10 0, 10 10, 0 10))".toList)
    (by decide) (by decide) (by decide)

unseal Rat.add Rat.mul Rat.sub Rat.inv in
/-- **C7.** In the fallback parser, coordinate pairs that fail to parse are
skipped rather than fatal: for every input passing the format check, the
parse fails with `EmptyGeometry` exactly when zero coordinate pairs parse
successfully, and otherwise succeeds with the ring built from exactly the
successfully parsed pairs.  The concrete conjunct shows a malformed pair
(`abc xyz`) being skipped without affecting the result. -/
theorem claim_c7_malformed_pairs_skipped :
    (∀ s : Str, wktFormatOk s = true →
        ((parse_polygon_wkt s = .error .EmptyGeometry ↔ wktCoords s = []) ∧
         (wktCoords s ≠ [] → parse_polygon_wkt s = .ok (closeRing (wktCoords s))))) ∧
    parse_polygon_wkt ("POLYGON((0 0, abc xyz, 10 0, 10 10, 0 10))".toList) =
      .ok [(0, 0), (10, 0), (10, 10), (0, 10), (0, 0)] := by
  refine ⟨?_, by decide⟩
  intro s hfmt
  unfold parse_polygon_wkt
  rw [if_neg (not_not_intro hfmt)]
  by_cases hc : wktCoords s = []
  · simp [hc]
  · have : (wktCoords s).isEmpty = false := by
      cases h : wktCoords s with
      | nil => exact absurd h hc
      | cons a t => rfl
    simp [this, hc]

unseal Rat.add Rat.mul Rat.sub Rat.inv in
/-- **C7 witness.** The general statement applied to the concrete input with
one malformed pair. -/
theorem claim_c7_witness :
    parse_polygon_wkt ("POLYGON((0 0, abc xyz, 10 0, 10 10, 0 10))".toList) =
      .ok (closeRing (wktCoords ("POLYGON((0 0, abc xyz, 10 0, 10 10, 0 10))".toList))) :=
  (claim_c7_malformed_pairs_skipped.1
    ("POLYGON((0 0, abc xyz, 10 0, 10 10, 0 10))".toList) (by decide)).2 (by decide)

/-! ## Sampler model (`src-tauri/src/sampling.rs`)

`SpatialDistributionSampler` and its methods, translated field by field.
Randomness (the `rand` crate) is external to the repository and is injected
as a family of draws, indexed so that every actual draw sequence of the Rust
program corresponds to one `Rng` value:
* `seedU i`   — the pair of `rng.random::<f64>()` draws of seed attempt `i`;
* `pick t n`  — the `rng.random_range(0..n)` draw of outer-loop iteration `t`;
* `dir t a`   — the pair `(cos θ, sin θ)` for the random angle `θ` of attempt
  `a` in iteration `t` (`f64::cos`/`sin` are transcendental, so the direction
  vector itself is the injected quantity);
* `radU t a`  — the `rng.random::<f64>()` radius draw of attempt `a` in
  iteration `t`. -/

/-- The bounding box `(min_x, min_y, max_x, max_y)`. -/
structure Bounds where
  min_x : ℚ
  min_y : ℚ
  max_x : ℚ
  max_y : ℚ
deriving DecidableEq, Repr

/-- The exact rational value of the IEEE-754 double
`std::f64::consts::SQRT_2 = 6369051672525773 * 2⁻⁵²` (slightly above `√2`,
so `2 < sqrt2Q ^ 2`). -/
def sqrt2Q : ℚ := 6369051672525773 / 4503599627370496

/-- Squared Euclidean distance, as computed in `is_point_valid`
(`dx*dx + dy*dy`). -/
def distSq (p q : Pt) : ℚ := (p.1 - q.1) * (p.1 - q.1) + (p.2 - q.2) * (p.2 - q.2)

/-- `sampling.rs:6-25` `SpatialDistributionSampler`. -/
structure Sampler where
  min_distance : ℚ
  max_attempts : ℕ
  cell_size : ℚ
  grid_width : ℕ
  grid_height : ℕ
  grid : List (Option ℕ)
  points : List Pt
  active_indices : List ℕ
  bounds : Bounds
deriving Repr

/-- `sampling.rs:33-56` `SpatialDistributionSampler::new`.
`(width / cell_size).ceil() as usize` is `Int.toNat ∘ Int.ceil`. -/
def Sampler.new (min_distance : ℚ) (bounds : Bounds) : Sampler :=
  let width := bounds.max_x - bounds.min_x
  let height := bounds.max_y - bounds.min_y
  let cell_size := min_distance / sqrt2Q
  let grid_width := (⌈width / cell_size⌉).toNat + 1
  let grid_height := (⌈height / cell_size⌉).toNat + 1
  { min_distance := min_distance
    max_attempts := 30
    cell_size := cell_size
    grid_width := grid_width
    grid_height := grid_height
    grid := List.replicate (grid_width * grid_height) none
    points := []
    active_indices := []
    bounds := bounds }

/-- Grid column of a point: `((point.x() - min_x) / self.cell_size) as usize`
(`sampling.rs:141,164`). -/
def Sampler.cellX (s : Sampler) (p : Pt) : ℕ :=
  (⌊(p.1 - s.bounds.min_x) / s.cell_size⌋).toNat

/-- Grid row of a point (`sampling.rs:142,165`). -/
def Sampler.cellY (s : Sampler) (p : Pt) : ℕ :=
  (⌊(p.2 - s.bounds.min_y) / s.cell_size⌋).toNat

/-- Linear grid index of a point's cell (`grid_y * grid_width + grid_x`). -/
def Sampler.cellIdx (s : Sampler) (p : Pt) : ℕ :=
  s.cellY p * s.grid_width + s.cellX p

/-- `sampling.rs:132-151` `SpatialDistributionSampler::add_point`.  The
source's two nested bounds guards around the grid write collapse into one
conjunction; the point and active-index appends happen in every case. -/
def Sampler.add_point (s : Sampler) (p : Pt) : Sampler :=
  { s with
    points := s.points ++ [p]
    active_indices := s.active_indices ++ [s.points.length]
    grid :=
      if s.cellX p < s.grid_width ∧ s.cellY p < s.grid_height ∧
          s.cellIdx p < s.grid.length then
        s.grid.set (s.cellIdx p) (some s.points.length)
      else s.grid }

/-- The linear indices of the cells scanned by `is_point_valid`
(`sampling.rs:168-176`): rows `start_y ..= end_y` by columns
`start_x ..= end_x`, clamped to the grid; `y * grid_width + x` linearised.
An inclusive Rust range `a ..= b` is `List.range' a (b + 1 - a)`. -/
def Sampler.scanCells (s : Sampler) (p : Pt) : List ℕ :=
  let gx := s.cellX p
  let gy := s.cellY p
  let startX := if gx > 1 then gx - 1 else 0
  let startY := if gy > 1 then gy - 1 else 0
  let endX := min (gx + 1) (s.grid_width - 1)
  let endY := min (gy + 1) (s.grid_height - 1)
  (List.range' startY (endY + 1 - startY)).flatMap fun y =>
    (List.range' startX (endX + 1 - startX)).map fun x => y * s.grid_width + x

/-- The per-cell check of `is_point_valid` (`sampling.rs:177-190`): a scanned
cell passes unless it stores the index of a point closer than
`min_distance` (squared-distance comparison, as in the source). -/
def Sampler.cellOk (s : Sampler) (p : Pt) (idx : ℕ) : Bool :=
  if idx < s.grid.length then
    match s.grid.getD idx none with
    | some point_idx =>
      let other := s.points.getD point_idx (0, 0)
      if distSq p other < s.min_distance * s.min_distance then false else true
    | none => true
  else true

/-- `sampling.rs:160-195` `SpatialDistributionSampler::is_point_valid`:
scan the 3×3 cell neighborhood (clamped to the grid) and reject the point
when any occupied cell holds a point at squared distance below
`min_distance * min_distance`.  The nested `for` loops with early
`return false` are the conjunction of `cellOk` over `scanCells`. -/
def Sampler.is_point_valid (s : Sampler) (p : Pt) : Bool :=
  (s.scanCells p).all (s.cellOk p)

/-- Rust `Vec::swap_remove(i)`: replace element `i` by the last element and
pop the last element. -/
def swapRemove {α : Type} (l : List α) (i : ℕ) : List α :=
  match h : l.getLast? with
  | none => []
  | some last => (l.set i last).dropLast

/-- The injected random draws (see the section comment). -/
structure Rng where
  seedU : ℕ → ℚ × ℚ
  pick : ℕ → ℕ → ℕ
  dir : ℕ → ℕ → ℚ × ℚ
  radU : ℕ → ℕ → ℚ

/-- The seed point of attempt `i`:
`(min_x + u₁ * (max_x - min_x), min_y + u₂ * (max_y - min_y))`
(`sampling.rs:72-74`). -/
def seedPoint (rng : Rng) (b : Bounds) (i : ℕ) : Pt :=
  ((b.min_x + (rng.seedU i).1 * (b.max_x - b.min_x)),
   (b.min_y + (rng.seedU i).2 * (b.max_y - b.min_y)))

/-- `sampling.rs:71-80`: try up to `attempts` random seed points, adding the
first one contained in the polygon (`contains` is the
`geo::Contains::contains` predicate of the external geometry library,
injected as a parameter). -/
def seedLoop (contains : Pt → Bool) (rng : Rng) (b : Bounds) (s : Sampler) :
    ℕ → ℕ → Sampler
  | _, 0 => s
  | i, attempts + 1 =>
    if contains (seedPoint rng b i) then s.add_point (seedPoint rng b i)
    else seedLoop contains rng b s (i + 1) attempts

/-- `sampling.rs:96-117`: the attempt loop around the active point `pivot` in
outer iteration `t`; returns the first candidate that lies inside the
(half-open) bounding box, inside the polygon, and passes `is_point_valid`.
Attempt `a` draws radius `min_distance + min_distance * u` and direction
`(cos θ, sin θ)`. -/
def tryCandidates (contains : Pt → Bool) (rng : Rng) (s : Sampler) (pivot : Pt)
    (t : ℕ) : ℕ → ℕ → Option Pt
  | _, 0 => none
  | a, remaining + 1 =>
    let radius := s.min_distance + s.min_distance * rng.radU t a
    let nx := pivot.1 + radius * (rng.dir t a).1
    let ny := pivot.2 + radius * (rng.dir t a).2
    if nx < s.bounds.min_x ∨ nx ≥ s.bounds.max_x ∨
        ny < s.bounds.min_y ∨ ny ≥ s.bounds.max_y then
      tryCandidates contains rng s pivot t (a + 1) remaining
    else if contains (nx, ny) ∧ s.is_point_valid (nx, ny) then some (nx, ny)
    else tryCandidates contains rng s pivot t (a + 1) remaining

/-- `sampling.rs:87-123`: the outer `while !active_indices.is_empty()` loop,
with explicit fuel (`claim_c3` proves the fuel used by
`generate_distribution` always suffices, so the fuelled model agrees with
the unbounded Rust loop). `t` numbers the iterations for the draw family. -/
def sampleLoop (contains : Pt → Bool) (rng : Rng) : ℕ → ℕ → Sampler → Sampler
  | 0, _, s => s
  | fuel + 1, t, s =>
    if s.active_indices.isEmpty then s
    else
      match tryCandidates contains rng s
          (s.points.getD (s.active_indices.getD (rng.pick t s.active_indices.length) 0) (0, 0))
          t 0 s.max_attempts with
      | some p => sampleLoop contains rng fuel (t + 1) (s.add_point p)
      | none =>
        sampleLoop contains rng fuel (t + 1)
          { s with active_indices :=
              swapRemove s.active_indices (rng.pick t s.active_indices.length) }

/-- `sampling.rs:66-126` `generate_distribution`: seed (up to 100 attempts),
return `[]` if seeding failed, otherwise run the growth loop and return the
accumulated points.  Fuel `2 * grid.length + 1` dominates the loop measure
(see `claim_c3_termination`). -/
def generate_distribution (contains : Pt → Bool) (rng : Rng)
    (min_distance : ℚ) (b : Bounds) : List Pt :=
  let s0 := Sampler.new min_distance b
  let s1 := seedLoop contains rng b s0 0 100
  if s1.active_indices.isEmpty then []
  else (sampleLoop contains rng (2 * s1.grid.length + 1) 0 s1).points

/-! ## Jitter stage model (`src-tauri/src/processing.rs:218-237`) -/

/-- One point of the jitter stage: when `variation > 0` the offset is
`(distance * cos θ, distance * sin θ)` with `distance = u * variation`
(`u` the unit draw, `dir = (cos θ, sin θ)` the direction of the random
angle); otherwise the offset is `(0, 0)`.  The offset is added
unconditionally — the stage never consults the polygon or the other
points. -/
def apply_variation (variation : ℚ) (dir : ℚ × ℚ) (u : ℚ) (p : Pt) : Pt :=
  let v : ℚ × ℚ :=
    if 0 < variation then
      let distance := u * variation
      (distance * dir.1, distance * dir.2)
    else (0, 0)
  (p.1 + v.1, p.2 + v.2)

/-- The whole jitter stage: the `for point in sampled_points` loop applies
`apply_variation` to every sampled point, with the draws of iteration `i`. -/
def jitterAll (variation : ℚ) (dirs : ℕ → ℚ × ℚ) (us : ℕ → ℚ) :
    List Pt → ℕ → List Pt
  | [], _ => []
  | p :: rest, i => apply_variation variation (dirs i) (us i) p :: jitterAll variation dirs us rest (i + 1)

/-! ## Sampler theorems (claims C1, C2, C3, C5, C9, C10) -/

/-- A concrete injected draw family used by the witnesses: every unit draw
is `0`, every index pick is `0`, every direction is the degenerate `(0, 0)`
vector (so every annulus candidate coincides with its pivot and is rejected
by the spacing check, exercising the pivot-retirement path). -/
def witnessRng : Rng := ⟨fun _ => (0, 0), fun _ _ => 0, fun _ _ => (0, 0), fun _ _ => 0⟩

set_option maxRecDepth 100000 in
unseal Rat.add Rat.mul Rat.sub Rat.inv in
/-- **C1 (refuting evaluation).** With `min_distance = 1` and bounding box
`(0,0)–(10,10)` (cell edge `1/√2 ≈ 0.707`), the point `A = (0.7, 0.5)` lies
in cell `(0,0)` and `B = (1.55, 0.5)` in cell `(2,0)`.  `is_point_valid`
scans only the 3×3 neighborhood of `B`'s cell (columns 1–3), misses `A`
two cells away, and accepts `B` — yet `dist(A,B) = 0.85 < 1`: after two
`add_point` calls each preceded by a passing `is_point_valid` check, the
accepted points are closer than `min_distance`, contradicting the claim
(and the sampler's own doc comment). -/
theorem claim_c1_spacing_counterexample :
    (Sampler.new 1 ⟨0, 0, 10, 10⟩).is_point_valid (7/10, 1/2) = true ∧
    ((Sampler.new 1 ⟨0, 0, 10, 10⟩).add_point (7/10, 1/2)).is_point_valid (31/20, 1/2) = true ∧
    (((Sampler.new 1 ⟨0, 0, 10, 10⟩).add_point (7/10, 1/2)).add_point (31/20, 1/2)).points
      = [(7/10, 1/2), (31/20, 1/2)] ∧
    (Sampler.new 1 ⟨0, 0, 10, 10⟩).cellX (7/10, 1/2) = 0 ∧
    (Sampler.new 1 ⟨0, 0, 10, 10⟩).cellX (31/20, 1/2) = 2 ∧
    distSq (7/10, 1/2) (31/20, 1/2) < 1 * 1 ∧
    ((7/10, 1/2) : Pt) ≠ ((31/20, 1/2) : Pt) := by
  decide

/-- Auxiliary for C5: if every seed point tried by `seedLoop` misses the
polygon, the state is returned unchanged. -/
theorem seedLoop_all_fail (contains : Pt → Bool) (rng : Rng) (b : Bounds)
    (s : Sampler) :
    ∀ (attempts i : ℕ),
      (∀ k, i ≤ k → k < i + attempts → contains (seedPoint rng b k) = false) →
      seedLoop contains rng b s i attempts = s := by
  intro attempts
  induction attempts with
  | zero => intro i _; rfl
  | succ n ih =>
    intro i h
    unfold seedLoop
    rw [h i (Nat.le_refl i) (by omega)]
    exact ih (i + 1) (fun k hk1 hk2 => h k (by omega) (by omega))

/-- **C5.** If none of the 100 random seed attempts lands inside the
polygon, `generate_distribution` returns the empty list — a valid outcome,
not an error (the model's return type `List Pt`, like the source's
`Vec<Point<f64>>`, has no error case at all). -/
theorem claim_c5_seed_failure (contains : Pt → Bool) (rng : Rng)
    (min_distance : ℚ) (b : Bounds)
    (h : ∀ k < 100, contains (seedPoint rng b k) = false) :
    generate_distribution contains rng min_distance b = [] := by
  simp only [generate_distribution]
  rw [seedLoop_all_fail contains rng b _ 100 0 (fun k _ hk2 => h k (by omega))]
  rfl

/-- **C5 witness.** A polygon predicate that contains nothing (the
degenerate-polygon case) yields the empty distribution. -/
theorem claim_c5_witness :
    generate_distribution (fun _ => false) witnessRng 10 ⟨0, 0, 1, 1⟩ = [] :=
  claim_c5_seed_failure (fun _ => false) witnessRng 10 ⟨0, 0, 1, 1⟩
    (fun _ _ => rfl)

/-- `add_point` changes no configuration field (it only appends to
`points`/`active_indices` and possibly writes one grid cell). -/
theorem add_point_bounds (s : Sampler) (p : Pt) : (s.add_point p).bounds = s.bounds := rfl

theorem add_point_points (s : Sampler) (p : Pt) :
    (s.add_point p).points = s.points ++ [p] := rfl

/-- A candidate returned by the attempt loop lies inside the half-open
bounding box, inside the polygon, and passed `is_point_valid`
(`sampling.rs:104-116`). -/
theorem tryCandidates_some (contains : Pt → Bool) (rng : Rng) (s : Sampler)
    (pivot : Pt) (t : ℕ) :
    ∀ (r a : ℕ) (p : Pt), tryCandidates contains rng s pivot t a r = some p →
      s.bounds.min_x ≤ p.1 ∧ p.1 < s.bounds.max_x ∧
      s.bounds.min_y ≤ p.2 ∧ p.2 < s.bounds.max_y ∧
      contains p = true ∧ s.is_point_valid p = true := by
  intro r
  induction r with
  | zero => intro a p h; cases h
  | succ n ih =>
    intro a p h
    simp only [tryCandidates] at h
    split at h
    · exact ih (a + 1) p h
    · rename_i hbb
      push_neg at hbb
      split at h
      · rename_i hcv
        cases h
        exact ⟨hbb.1, hbb.2.1, hbb.2.2.1, hbb.2.2.2, hcv.1, hcv.2⟩
      · exact ih (a + 1) p h

/-- Generic preservation through the growth loop: any point property that
holds of the current points and of every in-box polygon-contained point
holds of all points of the final state. -/
theorem sampleLoop_points_pred (contains : Pt → Bool) (rng : Rng)
    (Q : Pt → Prop) :
    ∀ (fuel t : ℕ) (s : Sampler),
      (∀ p ∈ s.points, Q p) →
      (∀ p : Pt, s.bounds.min_x ≤ p.1 → p.1 < s.bounds.max_x →
        s.bounds.min_y ≤ p.2 → p.2 < s.bounds.max_y → contains p = true → Q p) →
      ∀ p ∈ (sampleLoop contains rng fuel t s).points, Q p := by
  intro fuel
  induction fuel with
  | zero => intro t s h _ p hp; exact h p hp
  | succ n ih =>
    intro t s hpts hcand p hp
    rw [sampleLoop] at hp
    split at hp
    · exact hpts p hp
    · split at hp
      · rename_i q htc
        refine ih (t + 1) _ ?_ ?_ p hp
        · intro x hx
          rw [add_point_points] at hx
          rcases List.mem_append.mp hx with hx | hx
          · exact hpts x hx
          · have hq := tryCandidates_some contains rng s _ t _ _ q htc
            have : x = q := List.mem_singleton.mp hx
            subst this
            exact hcand x hq.1 hq.2.1 hq.2.2.1 hq.2.2.2.1 hq.2.2.2.2.1
        · intro x h1 h2 h3 h4 h5
          exact hcand x h1 h2 h3 h4 h5
      · exact ih (t + 1)
          { s with active_indices :=
              swapRemove s.active_indices (rng.pick t s.active_indices.length) }
          hpts hcand p hp

/-- The seeding loop never changes the bounds field. -/
theorem seedLoop_bounds (contains : Pt → Bool) (rng : Rng) (b : Bounds) :
    ∀ (attempts i : ℕ) (s : Sampler),
      (seedLoop contains rng b s i attempts).bounds = s.bounds := by
  intro attempts
  induction attempts with
  | zero => intro i s; rfl
  | succ n ih =>
    intro i s
    rw [seedLoop]
    split
    · rfl
    · exact ih (i + 1) s

/-- Every point present after seeding is either an original point or a seed
point that passed the containment test. -/
theorem seedLoop_points (contains : Pt → Bool) (rng : Rng) (b : Bounds) :
    ∀ (attempts i : ℕ) (s : Sampler),
      ∀ p ∈ (seedLoop contains rng b s i attempts).points,
        p ∈ s.points ∨ (contains p = true ∧ ∃ k, p = seedPoint rng b k) := by
  intro attempts
  induction attempts with
  | zero => intro i s p hp; exact Or.inl hp
  | succ n ih =>
    intro i s p hp
    rw [seedLoop] at hp
    split at hp
    · rename_i hc
      rw [add_point_points] at hp
      rcases List.mem_append.mp hp with hp | hp
      · exact Or.inl hp
      · have : p = seedPoint rng b i := List.mem_singleton.mp hp
        subst this
        exact Or.inr ⟨hc, i, rfl⟩
    · exact ih (i + 1) s p hp

/-- **C2.** Every point returned by `generate_distribution` satisfies the
polygon-containment predicate: the seed is accepted only under the
`polygon.contains` check (`sampling.rs:76`) and every later candidate only
under the same check (`sampling.rs:112`). -/
theorem claim_c2_containment (contains : Pt → Bool) (rng : Rng)
    (min_distance : ℚ) (b : Bounds) :
    ∀ p ∈ generate_distribution contains rng min_distance b, contains p = true := by
  intro p hp
  simp only [generate_distribution] at hp
  split at hp
  · cases hp
  · refine sampleLoop_points_pred contains rng (fun q => contains q = true)
      _ 0 _ ?_ ?_ p hp
    · intro q hq
      rcases seedLoop_points contains rng b 100 0 (Sampler.new min_distance b) q hq with
        h | h
      · cases h
      · exact h.1
    · intro q _ _ _ _ hq
      exact hq

set_option maxRecDepth 100000 in
unseal Rat.add Rat.mul Rat.sub Rat.inv in
/-- **C2 witness.** With an all-accepting containment predicate over the unit
box, the run accepts the seed `(0,0)` and retires it, and the returned point
satisfies the predicate. -/
theorem claim_c2_witness :
    (0, 0) ∈ generate_distribution (fun _ => true) witnessRng 10 ⟨0, 0, 1, 1⟩ ∧
    (fun _ : Pt => true) ((0 : ℚ), (0 : ℚ)) = true :=
  ⟨by decide,
   claim_c2_containment (fun _ => true) witnessRng 10 ⟨0, 0, 1, 1⟩ (0, 0) (by decide)⟩

/-- **C9.** For a nondegenerate bounding box and unit draws in `[0,1)`,
every returned point lies in the half-open box
`min_x ≤ x < max_x`, `min_y ≤ y < max_y`: the seed is
`min + u·(max − min)` with `u ∈ [0,1)` (`sampling.rs:72-73`) and every
annulus candidate outside the half-open box is discarded before the
containment and spacing checks (`sampling.rs:105-107`). -/
theorem claim_c9_half_open_bbox (contains : Pt → Bool) (rng : Rng)
    (min_distance : ℚ) (b : Bounds)
    (hx : b.min_x < b.max_x) (hy : b.min_y < b.max_y)
    (hu : ∀ i, 0 ≤ (rng.seedU i).1 ∧ (rng.seedU i).1 < 1 ∧
      0 ≤ (rng.seedU i).2 ∧ (rng.seedU i).2 < 1) :
    ∀ p ∈ generate_distribution contains rng min_distance b,
      b.min_x ≤ p.1 ∧ p.1 < b.max_x ∧ b.min_y ≤ p.2 ∧ p.2 < b.max_y := by
  intro p hp
  simp only [generate_distribution] at hp
  split at hp
  · cases hp
  · refine sampleLoop_points_pred contains rng
      (fun q => b.min_x ≤ q.1 ∧ q.1 < b.max_x ∧ b.min_y ≤ q.2 ∧ q.2 < b.max_y)
      _ 0 _ ?_ ?_ p hp
    · intro q hq
      rcases seedLoop_points contains rng b 100 0 (Sampler.new min_distance b) q hq with
        h | h
      · cases h
      · obtain ⟨-, k, rfl⟩ := h
        obtain ⟨h1, h2, h3, h4⟩ := hu k
        unfold seedPoint
        refine ⟨?_, ?_, ?_, ?_⟩ <;> simp only
        · nlinarith
        · nlinarith
        · nlinarith
        · nlinarith
    · intro q h1 h2 h3 h4 _
      rw [seedLoop_bounds contains rng b 100 0 (Sampler.new min_distance b)] at h1 h2 h3 h4
      exact ⟨h1, h2, h3, h4⟩

set_option maxRecDepth 100000 in
unseal Rat.add Rat.mul Rat.sub Rat.inv in
/-- **C9 witness.** The concrete run over the unit box returns `[(0,0)]`,
and the theorem instantiates to the returned point. -/
theorem claim_c9_witness :
    (0 : ℚ) ≤ (0 : ℚ) ∧ (0 : ℚ) < 1 ∧ (0 : ℚ) ≤ (0 : ℚ) ∧ (0 : ℚ) < 1 :=
  claim_c9_half_open_bbox (fun _ => true) witnessRng 10 ⟨0, 0, 1, 1⟩
    (by norm_num) (by norm_num)
    (fun i => ⟨le_refl 0, zero_lt_one, le_refl 0, zero_lt_one⟩)
    (0, 0) (by decide)

/-- Grid well-formedness (claim C10): every `some`-entry of the grid is a
valid index into the points list. -/
def GridIndexInv (s : Sampler) : Prop :=
  ∀ c j, s.grid.getD c none = some j → j < s.points.length

/-- Nat helper: a linearised in-range cell index is inside the grid vector. -/
theorem linear_cell_index_lt (x y gw gh : ℕ) (hgw : 1 ≤ gw) (hgh : 1 ≤ gh)
    (hx : x ≤ gw - 1) (hy : y ≤ gh - 1) : y * gw + x < gw * gh := by
  have h1 : y * gw ≤ (gh - 1) * gw := Nat.mul_le_mul_right gw hy
  have h2 : (gh - 1) * gw + gw = gh * gw := by
    cases gh with
    | zero => omega
    | succ m => simp [Nat.succ_sub_one, Nat.succ_mul]
  have h3 : gh * gw = gw * gh := Nat.mul_comm gh gw
  omega

/-- Any member of the scanned 3×3 window is bounded by the clamped corner. -/
theorem scanCells_bounds (s : Sampler) (p : Pt) (idx : ℕ)
    (h : idx ∈ s.scanCells p) :
    ∃ x y, idx = y * s.grid_width + x ∧
      x ≤ s.grid_width - 1 ∧ y ≤ s.grid_height - 1 := by
  simp only [Sampler.scanCells, List.mem_flatMap, List.mem_map] at h
  obtain ⟨y, hy, x, hx, rfl⟩ := h
  rw [List.mem_range'] at hy hx
  obtain ⟨iy, hiy, rfl⟩ := hy
  obtain ⟨ix, hix, rfl⟩ := hx
  refine ⟨_, _, rfl, ?_, ?_⟩ <;> omega

/-- **C10.** Grid/points index safety of the sampler:
1. the fresh sampler's grid stores no index at all;
2. `add_point` preserves `GridIndexInv` (it appends the point and stores
   exactly the new index), so `is_point_valid`'s `points[point_idx]` lookup
   is always in bounds — conjunct 3 states that lookup bound explicitly;
4. the clamped 3×3 iteration of `is_point_valid` only computes cell indices
   inside the grid vector (for the `grid.len = width * height` layout that
   `new` establishes and `add_point` preserves);
5. `add_point` leaves the grid unchanged unless its three bounds guards
   (`grid_x < grid_width`, `grid_y < grid_height`, `grid_idx < grid.len()`)
   all pass. -/
theorem claim_c10_grid_index_safety :
    (∀ (d : ℚ) (b : Bounds), GridIndexInv (Sampler.new d b)) ∧
    (∀ (s : Sampler) (p : Pt), GridIndexInv s → GridIndexInv (s.add_point p)) ∧
    (∀ (s : Sampler) (p : Pt) (idx pi : ℕ), GridIndexInv s →
      idx ∈ s.scanCells p → s.grid.getD idx none = some pi →
      pi < s.points.length) ∧
    (∀ (s : Sampler) (p : Pt) (idx : ℕ),
      s.grid.length = s.grid_width * s.grid_height →
      1 ≤ s.grid_width → 1 ≤ s.grid_height →
      idx ∈ s.scanCells p → idx < s.grid.length) ∧
    (∀ (s : Sampler) (p : Pt),
      ¬ (s.cellX p < s.grid_width ∧ s.cellY p < s.grid_height ∧
          s.cellIdx p < s.grid.length) →
      (s.add_point p).grid = s.grid) := by
  refine ⟨?_, ?_, ?_, ?_, ?_⟩
  · intro d b c j h
    have hg : (Sampler.new d b).grid =
        List.replicate ((Sampler.new d b).grid_width * (Sampler.new d b).grid_height) none := rfl
    rw [hg, List.getD_eq_getElem?_getD, List.getElem?_replicate] at h
    split at h <;> simp at h
  · intro s p hs c j h
    have hlen : (s.add_point p).points.length = s.points.length + 1 := by
      rw [add_point_points, List.length_append, List.length_singleton]
    rw [hlen]
    simp only [Sampler.add_point] at h
    split at h
    · rw [List.getD_eq_getElem?_getD, List.getElem?_set] at h
      split at h
      · split at h
        · have : j = s.points.length := by
            simp only [Option.getD_some] at h
            exact (Option.some.inj h).symm
          omega
        · simp at h
      · rw [← List.getD_eq_getElem?_getD] at h
        exact Nat.lt_succ_of_lt (hs c j h)
    · exact Nat.lt_succ_of_lt (hs c j h)
  · intro s p idx pi hs _ h
    exact hs idx pi h
  · intro s p idx hlen hgw hgh h
    obtain ⟨x, y, rfl, hx, hy⟩ := scanCells_bounds s p idx h
    rw [hlen]
    exact linear_cell_index_lt x y s.grid_width s.grid_height hgw hgh hx hy
  · intro s p hguard
    simp only [Sampler.add_point]
    rw [if_neg hguard]

set_option maxRecDepth 100000 in
unseal Rat.add Rat.mul Rat.sub Rat.inv in
/-- **C10 witness.** The invariant instantiated on the concrete sampler of
the C1 run: it holds after the first `add_point`, and scanned cell `0` is
inside the 256-cell grid. -/
theorem claim_c10_witness :
    GridIndexInv ((Sampler.new 1 ⟨0, 0, 10, 10⟩).add_point (7/10, 1/2)) ∧
    (0 : ℕ) < (Sampler.new 1 ⟨0, 0, 10, 10⟩).grid.length :=
  ⟨claim_c10_grid_index_safety.2.1 (Sampler.new 1 ⟨0, 0, 10, 10⟩) (7/10, 1/2)
      (claim_c10_grid_index_safety.1 1 ⟨0, 0, 10, 10⟩),
   claim_c10_grid_index_safety.2.2.2.1 (Sampler.new 1 ⟨0, 0, 10, 10⟩) (7/10, 1/2) 0
      (by decide) (by decide) (by decide) (by decide)⟩

/-- **C8.** The jitter stage (`processing.rs:218-237`): with
`variation > 0` each point is translated by the offset
`(d·cos θ, d·sin θ)` whose radius `d = u · variation` lies in
`[0, variation)` for a unit draw `u ∈ [0,1)` and whose direction
`dir = (cos θ, sin θ)` comes from the random angle; with `variation = 0`
the point is returned exactly unchanged.  The stage maps every sampled
point unconditionally — conjuncts 3 and 4 show no point is dropped or
re-validated against the polygon or the spacing constraint (the stage has
no access to either). -/
theorem claim_c8_jitter_offset (variation : ℚ) (dir : ℚ × ℚ) (u : ℚ) (p : Pt)
    (hu0 : 0 ≤ u) (hu1 : u < 1) :
    (0 < variation →
      apply_variation variation dir u p =
        (p.1 + (u * variation) * dir.1, p.2 + (u * variation) * dir.2) ∧
      0 ≤ u * variation ∧ u * variation < variation) ∧
    (variation = 0 → apply_variation variation dir u p = p) ∧
    (∀ (pts : List Pt) (dirs : ℕ → ℚ × ℚ) (us : ℕ → ℚ) (i : ℕ),
      (jitterAll variation dirs us pts i).length = pts.length) ∧
    (∀ (pts : List Pt) (dirs : ℕ → ℚ × ℚ) (us : ℕ → ℚ) (i k : ℕ),
      (jitterAll variation dirs us pts i)[k]? =
        (pts[k]?).map (apply_variation variation (dirs (i + k)) (us (i + k)))) := by
  refine ⟨?_, ?_, ?_, ?_⟩
  · intro hv
    refine ⟨by simp [apply_variation, hv], mul_nonneg hu0 (le_of_lt hv), ?_⟩
    nlinarith
  · intro hv
    subst hv
    simp [apply_variation]
  · intro pts dirs us i
    induction pts generalizing i with
    | nil => rfl
    | cons q rest ih => simp [jitterAll, ih (i + 1)]
  · intro pts dirs us i k
    induction pts generalizing i k with
    | nil => simp [jitterAll]
    | cons q rest ih =>
      cases k with
      | zero => simp [jitterAll]
      | succ m =>
        have hidx : i + 1 + m = i + (m + 1) := by omega
        simp only [jitterAll, List.getElem?_cons_succ, ih (i + 1) m, hidx]

/-- **C8 witness.** A positive-variation jitter at radius draw `0` and a
zero-variation jitter, both at the concrete point `(2,3)`. -/
theorem claim_c8_witness :
    apply_variation 1 ((1 : ℚ), (0 : ℚ)) 0 ((2 : ℚ), (3 : ℚ)) =
      ((2 : ℚ) + (0 * 1) * 1, (3 : ℚ) + (0 * 1) * 0) ∧
    apply_variation 0 ((1 : ℚ), (0 : ℚ)) 0 ((2 : ℚ), (3 : ℚ)) = ((2 : ℚ), (3 : ℚ)) :=
  ⟨((claim_c8_jitter_offset 1 (1, 0) 0 (2, 3) le_rfl zero_lt_one).1 zero_lt_one).1,
   (claim_c8_jitter_offset 0 (1, 0) 0 (2, 3) le_rfl zero_lt_one).2.1 rfl⟩

/-! ## Termination of `generate_distribution` (claim C3)

The source loop `while !active_indices.is_empty()` (`sampling.rs:87`) has no
syntactic bound; the termination argument is: every accepted point occupies
a previously empty grid cell (two points in one cell would be closer than
`min_distance` because the cell diagonal is `min_distance · (√2/SQRT_2) <
min_distance`, and `is_point_valid` always scans the candidate's own cell),
so at most `grid.length` points are ever accepted, and every iteration
either accepts a point or removes one frontier index, strictly decreasing
`2·(grid.length − points.length) + active.length`. -/

/-- Closed-box membership (seed and candidates both satisfy it). -/
def InBox (b : Bounds) (p : Pt) : Prop :=
  b.min_x ≤ p.1 ∧ p.1 ≤ b.max_x ∧ b.min_y ≤ p.2 ∧ p.2 ≤ b.max_y

/-- The sampler invariant maintained by the seeding and growth loops. -/
structure Inv (s : Sampler) : Prop where
  grid_len : s.grid.length = s.grid_width * s.grid_height
  gw_pos : 1 ≤ s.grid_width
  gh_pos : 1 ≤ s.grid_height
  md_pos : 0 < s.min_distance
  cell_eq : s.cell_size = s.min_distance / sqrt2Q
  gw_eq : (⌈(s.bounds.max_x - s.bounds.min_x) / s.cell_size⌉).toNat + 1 = s.grid_width
  gh_eq : (⌈(s.bounds.max_y - s.bounds.min_y) / s.cell_size⌉).toNat + 1 = s.grid_height
  pts_box : ∀ p ∈ s.points, InBox s.bounds p
  grid_some : ∀ c j, s.grid.getD c none = some j →
    j < s.points.length ∧ s.cellIdx (s.points.getD j (0, 0)) = c
  pts_grid : ∀ i < s.points.length,
    s.grid.getD (s.cellIdx (s.points.getD i (0, 0))) none = some i
  active_lt : ∀ j ∈ s.active_indices, j < s.points.length

theorem sqrt2Q_pos : 0 < sqrt2Q := by norm_num [sqrt2Q]

theorem two_le_sqrt2Q_sq : (2 : ℚ) ≤ sqrt2Q * sqrt2Q := by norm_num [sqrt2Q]

theorem cell_size_pos (s : Sampler) (h : Inv s) : 0 < s.cell_size := by
  rw [h.cell_eq]
  exact div_pos h.md_pos sqrt2Q_pos

/-- A stored index is always a valid grid position. -/
theorem getD_some_lt_length (l : List (Option ℕ)) (c j : ℕ)
    (h : l.getD c none = some j) : c < l.length := by
  by_contra hc
  rw [List.getD_eq_default _ _ (by omega)] at h
  cases h

/-- An in-box point's cell column is at most `grid_width - 1`
(`x ≤ max_x` gives `(x−min_x)/cell ≤ width/cell`, and
`grid_width = ⌈width/cell⌉ + 1`). -/
theorem cellX_le (s : Sampler) (h : Inv s) (p : Pt) (hp : InBox s.bounds p) :
    s.cellX p ≤ s.grid_width - 1 := by
  have hc := cell_size_pos s h
  have h1 : (p.1 - s.bounds.min_x) / s.cell_size ≤
      (s.bounds.max_x - s.bounds.min_x) / s.cell_size := by
    exact (div_le_div_right hc).mpr (by linarith [hp.2.1])
  have h2 : ⌊(p.1 - s.bounds.min_x) / s.cell_size⌋ ≤
      ⌈(s.bounds.max_x - s.bounds.min_x) / s.cell_size⌉ :=
    le_trans (Int.floor_le_floor h1) (Int.floor_le_ceil _)
  have h3 := h.gw_eq
  unfold Sampler.cellX
  omega

/-- An in-box point's cell row is at most `grid_height - 1`. -/
theorem cellY_le (s : Sampler) (h : Inv s) (p : Pt) (hp : InBox s.bounds p) :
    s.cellY p ≤ s.grid_height - 1 := by
  have hc := cell_size_pos s h
  have h1 : (p.2 - s.bounds.min_y) / s.cell_size ≤
      (s.bounds.max_y - s.bounds.min_y) / s.cell_size := by
    exact (div_le_div_right hc).mpr (by linarith [hp.2.2.2])
  have h2 : ⌊(p.2 - s.bounds.min_y) / s.cell_size⌋ ≤
      ⌈(s.bounds.max_y - s.bounds.min_y) / s.cell_size⌉ :=
    le_trans (Int.floor_le_floor h1) (Int.floor_le_ceil _)
  have h3 := h.gh_eq
  unfold Sampler.cellY
  omega

/-- An in-box point's cell is inside the grid vector. -/
theorem cellIdx_lt (s : Sampler) (h : Inv s) (p : Pt) (hp : InBox s.bounds p) :
    s.cellIdx p < s.grid.length := by
  rw [h.grid_len]
  exact linear_cell_index_lt _ _ _ _ h.gw_pos h.gh_pos
    (cellX_le s h p hp) (cellY_le s h p hp)

/-- Uniqueness of the `row * width + column` decomposition. -/
theorem cell_decomp (a b c d w : ℕ) (hb : b < w) (hd : d < w)
    (h : a * w + b = c * w + d) : a = c ∧ b = d := by
  have ha : (a * w + b) / w = a := by
    rw [Nat.mul_comm a w, Nat.mul_add_div (by omega : 0 < w), Nat.div_eq_of_lt hb]
    omega
  have hc : (c * w + d) / w = c := by
    rw [Nat.mul_comm c w, Nat.mul_add_div (by omega : 0 < w), Nat.div_eq_of_lt hd]
    omega
  have : a = c := by rw [← ha, ← hc, h]
  subst this
  omega

/-- Two points whose x-cells agree differ by less than one cell edge in x. -/
theorem same_cellX_close (s : Sampler) (p q : Pt) (hc : 0 < s.cell_size)
    (hp : s.bounds.min_x ≤ p.1) (hq : s.bounds.min_x ≤ q.1)
    (h : s.cellX p = s.cellX q) : |p.1 - q.1| < s.cell_size := by
  have ha0 : 0 ≤ (p.1 - s.bounds.min_x) / s.cell_size :=
    div_nonneg (by linarith) (le_of_lt hc)
  have hb0 : 0 ≤ (q.1 - s.bounds.min_x) / s.cell_size :=
    div_nonneg (by linarith) (le_of_lt hc)
  have hfa : 0 ≤ ⌊(p.1 - s.bounds.min_x) / s.cell_size⌋ := Int.floor_nonneg.mpr ha0
  have hfb : 0 ≤ ⌊(q.1 - s.bounds.min_x) / s.cell_size⌋ := Int.floor_nonneg.mpr hb0
  have hfe : ⌊(p.1 - s.bounds.min_x) / s.cell_size⌋ =
      ⌊(q.1 - s.bounds.min_x) / s.cell_size⌋ := by
    unfold Sampler.cellX at h
    omega
  have hfeq : ((⌊(p.1 - s.bounds.min_x) / s.cell_size⌋ : ℤ) : ℚ) =
      ((⌊(q.1 - s.bounds.min_x) / s.cell_size⌋ : ℤ) : ℚ) := by
    exact_mod_cast congrArg (fun z : ℤ => (z : ℚ)) hfe
  have h1 := Int.floor_le ((p.1 - s.bounds.min_x) / s.cell_size)
  have h2 := Int.lt_floor_add_one ((p.1 - s.bounds.min_x) / s.cell_size)
  have h3 := Int.floor_le ((q.1 - s.bounds.min_x) / s.cell_size)
  have h4 := Int.lt_floor_add_one ((q.1 - s.bounds.min_x) / s.cell_size)
  have hab : |(p.1 - s.bounds.min_x) / s.cell_size -
      (q.1 - s.bounds.min_x) / s.cell_size| < 1 := by
    rw [abs_lt]
    constructor <;> linarith
  have hxa : (p.1 - s.bounds.min_x) / s.cell_size * s.cell_size =
      p.1 - s.bounds.min_x := div_mul_cancel₀ _ (ne_of_gt hc)
  have hxb : (q.1 - s.bounds.min_x) / s.cell_size * s.cell_size =
      q.1 - s.bounds.min_x := div_mul_cancel₀ _ (ne_of_gt hc)
  have hdiff : p.1 - q.1 =
      ((p.1 - s.bounds.min_x) / s.cell_size -
        (q.1 - s.bounds.min_x) / s.cell_size) * s.cell_size := by
    rw [sub_mul, hxa, hxb]
    ring
  rw [hdiff, abs_mul, abs_of_pos hc]
  calc |(p.1 - s.bounds.min_x) / s.cell_size -
        (q.1 - s.bounds.min_x) / s.cell_size| * s.cell_size
      < 1 * s.cell_size := mul_lt_mul_of_pos_right hab hc
    _ = s.cell_size := one_mul _

/-- Two points whose y-cells agree differ by less than one cell edge in y. -/
theorem same_cellY_close (s : Sampler) (p q : Pt) (hc : 0 < s.cell_size)
    (hp : s.bounds.min_y ≤ p.2) (hq : s.bounds.min_y ≤ q.2)
    (h : s.cellY p = s.cellY q) : |p.2 - q.2| < s.cell_size := by
  have := same_cellX_close { s with bounds := { s.bounds with min_x := s.bounds.min_y } }
    (p.2, 0) (q.2, 0) hc hp hq ?_
  · simpa using this
  · unfold Sampler.cellY at h
    unfold Sampler.cellX
    simpa using h

/-- Two in-box points in the same grid cell are strictly closer than
`min_distance`: the cell diagonal is `min_distance·√2/SQRT_2 < min_distance`
because the double constant `SQRT_2` exceeds `√2`. -/
theorem same_cell_too_close (s : Sampler) (h : Inv s) (p q : Pt)
    (hp : InBox s.bounds p) (hq : InBox s.bounds q)
    (hcell : s.cellIdx p = s.cellIdx q) :
    distSq p q < s.min_distance * s.min_distance := by
  have hc := cell_size_pos s h
  have hxlt : s.cellX p < s.grid_width := by
    have h1 := cellX_le s h p hp
    have h2 := h.gw_pos
    omega
  have hxlt' : s.cellX q < s.grid_width := by
    have h1 := cellX_le s h q hq
    have h2 := h.gw_pos
    omega
  obtain ⟨hyy, hxx⟩ :=
    cell_decomp (s.cellY p) (s.cellX p) (s.cellY q) (s.cellX q) s.grid_width
      hxlt hxlt' hcell
  have hdx := same_cellX_close s p q hc hp.1 hq.1 hxx
  have hdy := same_cellY_close s p q hc hp.2.2.1 hq.2.2.1 hyy
  have h2c : 2 * (s.cell_size * s.cell_size) ≤ s.min_distance * s.min_distance := by
    have hs2 := two_le_sqrt2Q_sq
    have hcell_eq : s.cell_size * sqrt2Q = s.min_distance := by
      rw [h.cell_eq]
      exact div_mul_cancel₀ _ (ne_of_gt sqrt2Q_pos)
    have hdd : s.min_distance * s.min_distance =
        (s.cell_size * s.cell_size) * (sqrt2Q * sqrt2Q) := by
      rw [← hcell_eq]
      ring
    have hcc : 0 ≤ s.cell_size * s.cell_size := le_of_lt (mul_pos hc hc)
    calc 2 * (s.cell_size * s.cell_size)
        = (s.cell_size * s.cell_size) * 2 := by ring
      _ ≤ (s.cell_size * s.cell_size) * (sqrt2Q * sqrt2Q) :=
          mul_le_mul_of_nonneg_left hs2 hcc
      _ = s.min_distance * s.min_distance := hdd.symm
  have hdx2 : (p.1 - q.1) * (p.1 - q.1) < s.cell_size * s.cell_size := by
    have h1 := abs_lt.mp hdx
    nlinarith [h1.1, h1.2]
  have hdy2 : (p.2 - q.2) * (p.2 - q.2) < s.cell_size * s.cell_size := by
    have h1 := abs_lt.mp hdy
    nlinarith [h1.1, h1.2]
  unfold distSq
  nlinarith

/-- A point's own cell is always among the scanned cells when it is in
range (the window is `[cellX−1, min (cellX+1) (gw−1)] × …`). -/
theorem own_cell_mem_scan (s : Sampler) (p : Pt)
    (hx : s.cellX p ≤ s.grid_width - 1) (hy : s.cellY p ≤ s.grid_height - 1)
    (hgw : 1 ≤ s.grid_width) (hgh : 1 ≤ s.grid_height) :
    s.cellIdx p ∈ s.scanCells p := by
  unfold Sampler.scanCells
  simp only [List.mem_flatMap, List.mem_map]
  refine ⟨s.cellY p, ?_, ⟨s.cellX p, ?_, rfl⟩⟩
  · rw [List.mem_range']
    refine ⟨s.cellY p - (if s.cellY p > 1 then s.cellY p - 1 else 0), ?_, ?_⟩
    · have : s.cellY p ≤ min (s.cellY p + 1) (s.grid_height - 1) := by
        rw [Nat.le_min]
        omega
      split <;> omega
    · rw [one_mul]
      split <;> omega
  · rw [List.mem_range']
    refine ⟨s.cellX p - (if s.cellX p > 1 then s.cellX p - 1 else 0), ?_, ?_⟩
    · have : s.cellX p ≤ min (s.cellX p + 1) (s.grid_width - 1) := by
        rw [Nat.le_min]
        omega
      split <;> omega
    · rw [one_mul]
      split <;> omega

/-- If a point passes `is_point_valid`, its own grid cell is empty: an
occupant of the same cell would be closer than `min_distance` and the scan
always includes the own cell. -/
theorem valid_own_cell_empty (s : Sampler) (h : Inv s) (p : Pt)
    (hp : InBox s.bounds p) (hv : s.is_point_valid p = true) :
    s.grid.getD (s.cellIdx p) none = none := by
  cases hsome : s.grid.getD (s.cellIdx p) none with
  | none => rfl
  | some j =>
    exfalso
    obtain ⟨hj, hcell⟩ := h.grid_some _ _ hsome
    have hmem : s.points.getD j (0, 0) ∈ s.points := by
      rw [List.getD_eq_getElem _ _ hj]
      exact List.getElem_mem _
    have hbox := h.pts_box _ hmem
    have hclose := same_cell_too_close s h p (s.points.getD j (0, 0)) hp hbox hcell.symm
    have hscan := own_cell_mem_scan s p (cellX_le s h p hp) (cellY_le s h p hp)
      h.gw_pos h.gh_pos
    have hall := List.all_eq_true.mp hv _ hscan
    unfold Sampler.cellOk at hall
    rw [if_pos (cellIdx_lt s h p hp), hsome] at hall
    have hb2 : s.points.getD j (0, 0) = s.points[j]?.getD 0 := by
      rw [List.getD_eq_getElem?_getD]
      rfl
    simp at hall
    rw [← hb2] at hall
    linarith

/-- getD over an append, left part. -/
theorem getD_append_left_pt {α : Type} (l : List α) (x d : α) (j : ℕ)
    (h : j < l.length) : (l ++ [x]).getD j d = l.getD j d := by
  rw [List.getD_eq_getElem?_getD, List.getElem?_append_left h,
    ← List.getD_eq_getElem?_getD]

/-- getD over an append, at the appended position. -/
theorem getD_append_length {α : Type} (l : List α) (x d : α) :
    (l ++ [x]).getD l.length d = x := by
  rw [List.getD_eq_getElem?_getD, List.getElem?_append_right (le_refl _)]
  simp

/-- getD of a set at the written position. -/
theorem getD_set_self (l : List (Option ℕ)) (i : ℕ) (a : Option ℕ)
    (h : i < l.length) : (l.set i a).getD i none = a := by
  rw [List.getD_eq_getElem?_getD, List.getElem?_set_self h]
  cases a <;> rfl

/-- getD of a set at another position. -/
theorem getD_set_ne (l : List (Option ℕ)) (i c : ℕ) (a : Option ℕ)
    (h : i ≠ c) : (l.set i a).getD c none = l.getD c none := by
  rw [List.getD_eq_getElem?_getD, List.getElem?_set_ne h,
    ← List.getD_eq_getElem?_getD]

/-- Under the invariant, the accepted points occupy pairwise distinct grid
cells, so their number is bounded by the number of cells; if moreover some
in-range cell is empty, the bound is strict. -/
theorem points_lt_capacity (s : Sampler) (h : Inv s) (c : ℕ)
    (hc : c < s.grid.length) (hempty : s.grid.getD c none = none) :
    s.points.length < s.grid.length := by
  let f : Fin s.points.length → Fin s.grid.length := fun i =>
    ⟨s.cellIdx (s.points.getD i.1 (0, 0)),
     getD_some_lt_length _ _ _ (h.pts_grid i.1 i.2)⟩
  have hinj : Function.Injective f := by
    intro i j hij
    have h1 := h.pts_grid i.1 i.2
    have h2 := h.pts_grid j.1 j.2
    have : s.cellIdx (s.points.getD i.1 (0, 0)) =
        s.cellIdx (s.points.getD j.1 (0, 0)) := congrArg Fin.val hij
    rw [this] at h1
    rw [h1] at h2
    exact Fin.ext (Option.some.inj h2)
  have hnot : (⟨c, hc⟩ : Fin s.grid.length) ∉ Set.range f := by
    rintro ⟨i, hi⟩
    have h1 := h.pts_grid i.1 i.2
    have : s.cellIdx (s.points.getD i.1 (0, 0)) = c := congrArg Fin.val hi
    rw [this, hempty] at h1
    cases h1
  have := Fintype.card_lt_of_injective_of_not_mem f hinj hnot
  simpa using this

/-- `add_point` never changes the grid's length. -/
theorem add_point_grid_length (s : Sampler) (p : Pt) :
    (s.add_point p).grid.length = s.grid.length := by
  simp only [Sampler.add_point]
  split <;> simp

/-- Adding an in-box point whose cell is empty preserves the invariant
(this is the situation of every `add_point` call: the seed lands in the
empty fresh grid, and later candidates pass `is_point_valid`, which forces
their own cell to be empty by `valid_own_cell_empty`). -/
theorem add_point_Inv (s : Sampler) (h : Inv s) (p : Pt)
    (hp : InBox s.bounds p)
    (hempty : s.grid.getD (s.cellIdx p) none = none) :
    Inv (s.add_point p) := by
  have hxle := cellX_le s h p hp
  have hyle := cellY_le s h p hp
  have hidx := cellIdx_lt s h p hp
  have hguard : s.cellX p < s.grid_width ∧ s.cellY p < s.grid_height ∧
      s.cellIdx p < s.grid.length := by
    refine ⟨?_, ?_, hidx⟩
    · have := h.gw_pos; omega
    · have := h.gh_pos; omega
  have hgrid : (s.add_point p).grid = s.grid.set (s.cellIdx p) (some s.points.length) := by
    simp only [Sampler.add_point]
    rw [if_pos hguard]
  have hpts : (s.add_point p).points = s.points ++ [p] := rfl
  have hlen : (s.add_point p).points.length = s.points.length + 1 := by
    rw [hpts, List.length_append, List.length_singleton]
  -- the cell functions agree on the two states (same configuration fields)
  have hcellIdx : ∀ q : Pt, (s.add_point p).cellIdx q = s.cellIdx q := fun _ => rfl
  refine ⟨?_, h.gw_pos, h.gh_pos, h.md_pos, h.cell_eq, h.gw_eq, h.gh_eq, ?_, ?_, ?_, ?_⟩
  · rw [hgrid, List.length_set]
    exact h.grid_len
  · intro q hq
    rw [hpts] at hq
    rcases List.mem_append.mp hq with hq | hq
    · exact h.pts_box q hq
    · rw [List.mem_singleton.mp hq]
      exact hp
  · intro c j hcj
    rw [hgrid] at hcj
    rw [hcellIdx, hlen]
    by_cases hcc : s.cellIdx p = c
    · subst hcc
      rw [getD_set_self _ _ _ hidx] at hcj
      have hj : j = s.points.length := (Option.some.inj hcj).symm
      subst hj
      rw [hpts, getD_append_length]
      exact ⟨by omega, rfl⟩
    · rw [getD_set_ne _ _ _ _ hcc] at hcj
      obtain ⟨hj, hcell⟩ := h.grid_some c j hcj
      rw [hpts, getD_append_left_pt _ _ _ _ hj]
      exact ⟨by omega, hcell⟩
  · intro i hi
    rw [hlen] at hi
    rw [hgrid, hcellIdx]
    by_cases hip : i = s.points.length
    · subst hip
      rw [hpts, getD_append_length]
      exact getD_set_self _ _ _ hidx
    · have hi' : i < s.points.length := by omega
      rw [hpts, getD_append_left_pt _ _ _ _ hi']
      have hne : s.cellIdx p ≠ s.cellIdx (s.points.getD i (0, 0)) := by
        intro he
        have := h.pts_grid i hi'
        rw [← he, hempty] at this
        cases this
      rw [getD_set_ne _ _ _ _ hne]
      exact h.pts_grid i hi'
  · intro j hj
    have hact : (s.add_point p).active_indices =
        s.active_indices ++ [s.points.length] := rfl
    rw [hact] at hj
    rw [hlen]
    rcases List.mem_append.mp hj with hj | hj
    · have := h.active_lt j hj
      omega
    · rw [List.mem_singleton.mp hj]
      omega

/-- Every element of a swap-remove result was in the original list. -/
theorem swapRemove_subset {α : Type} (l : List α) (i : ℕ) :
    ∀ x ∈ swapRemove l i, x ∈ l := by
  intro x hx
  unfold swapRemove at hx
  split at hx
  · cases hx
  · rename_i last hlast
    have h1 : x ∈ l.set i last := List.mem_of_mem_dropLast hx
    rcases List.mem_or_eq_of_mem_set h1 with h2 | h2
    · exact h2
    · subst h2
      rw [List.getLast?_eq_getElem?] at hlast
      exact List.getElem?_mem hlast

/-- Swap-removing from a non-empty list shortens it by one. -/
theorem swapRemove_length {α : Type} (l : List α) (i : ℕ) (h : l ≠ []) :
    (swapRemove l i).length = l.length - 1 := by
  unfold swapRemove
  split
  · rename_i hnone
    rw [List.getLast?_eq_none_iff] at hnone
    exact absurd hnone h
  · rw [List.length_dropLast, List.length_set]

/-- The fresh sampler satisfies the invariant. -/
theorem new_Inv (min_distance : ℚ) (b : Bounds) (hd : 0 < min_distance) :
    Inv (Sampler.new min_distance b) := by
  have hg : (Sampler.new min_distance b).grid =
      List.replicate ((Sampler.new min_distance b).grid_width *
        (Sampler.new min_distance b).grid_height) none := rfl
  have hrep : ∀ c j, (Sampler.new min_distance b).grid.getD c none = some j → False := by
    intro c j hcj
    rw [hg, List.getD_eq_getElem?_getD, List.getElem?_replicate] at hcj
    split at hcj <;> simp at hcj
  refine ⟨?_, ?_, ?_, hd, rfl, rfl, rfl, ?_, ?_, ?_, ?_⟩
  · rw [hg, List.length_replicate]
  · exact Nat.le_add_left 1 _
  · exact Nat.le_add_left 1 _
  · intro q hq
    cases hq
  · intro c j hcj
    exact absurd hcj (fun hc => hrep c j hc)
  · intro i hi
    cases hi
  · intro j hj
    cases hj

/-- Non-strict capacity bound: the accepted points never outnumber the grid
cells. -/
theorem points_le_capacity (s : Sampler) (h : Inv s) :
    s.points.length ≤ s.grid.length := by
  let f : Fin s.points.length → Fin s.grid.length := fun i =>
    ⟨s.cellIdx (s.points.getD i.1 (0, 0)),
     getD_some_lt_length _ _ _ (h.pts_grid i.1 i.2)⟩
  have hinj : Function.Injective f := by
    intro i j hij
    have h1 := h.pts_grid i.1 i.2
    have h2 := h.pts_grid j.1 j.2
    have : s.cellIdx (s.points.getD i.1 (0, 0)) =
        s.cellIdx (s.points.getD j.1 (0, 0)) := congrArg Fin.val hij
    rw [this] at h1
    rw [h1] at h2
    exact Fin.ext (Option.some.inj h2)
  have := Fintype.card_le_of_injective f hinj
  simpa using this

/-- The fresh grid is entirely empty. -/
theorem new_grid_empty (min_distance : ℚ) (b : Bounds) (c : ℕ) :
    (Sampler.new min_distance b).grid.getD c none = none := by
  have hg : (Sampler.new min_distance b).grid =
      List.replicate ((Sampler.new min_distance b).grid_width *
        (Sampler.new min_distance b).grid_height) none := rfl
  rw [hg, List.getD_eq_getElem?_getD, List.getElem?_replicate]
  split <;> rfl

/-- The growth loop, given enough fuel, empties the frontier while
preserving the invariant and the grid size: each iteration either accepts a
point into a previously empty cell (strictly increasing `points.length`,
which `points_lt_capacity` bounds by `grid.length`) or swap-removes one
frontier index, so `2·(grid.length − points.length) + active.length`
strictly decreases. -/
theorem sampleLoop_empties (contains : Pt → Bool) (rng : Rng) :
    ∀ (fuel t : ℕ) (s : Sampler), Inv s →
      2 * (s.grid.length - s.points.length) + s.active_indices.length < fuel →
      (sampleLoop contains rng fuel t s).active_indices = [] ∧
      Inv (sampleLoop contains rng fuel t s) ∧
      (sampleLoop contains rng fuel t s).grid.length = s.grid.length := by
  intro fuel
  induction fuel with
  | zero => intro t s _ hm; omega
  | succ n ih =>
    intro t s hInv hm
    rw [sampleLoop]
    split
    · rename_i hemp
      exact ⟨List.isEmpty_iff.mp hemp, hInv, rfl⟩
    · rename_i hemp
      split
      · rename_i q htc
        have hq := tryCandidates_some contains rng s _ t _ _ q htc
        have hbox : InBox s.bounds q :=
          ⟨hq.1, le_of_lt hq.2.1, hq.2.2.1, le_of_lt hq.2.2.2.1⟩
        have hvalid := hq.2.2.2.2.2
        have hempty := valid_own_cell_empty s hInv q hbox hvalid
        have hInv' := add_point_Inv s hInv q hbox hempty
        have hlt := points_lt_capacity s hInv (s.cellIdx q)
          (cellIdx_lt s hInv q hbox) hempty
        have h1 : (s.add_point q).points.length = s.points.length + 1 := by
          rw [add_point_points, List.length_append, List.length_singleton]
        have h2 := add_point_grid_length s q
        have h3 : (s.add_point q).active_indices.length =
            s.active_indices.length + 1 := by
          rw [show (s.add_point q).active_indices =
              s.active_indices ++ [s.points.length] from rfl,
            List.length_append, List.length_singleton]
        have hres := ih (t + 1) (s.add_point q) hInv' (by rw [h1, h2, h3]; omega)
        exact ⟨hres.1, hres.2.1, by rw [hres.2.2, h2]⟩
      · rename_i htc
        have hne : s.active_indices ≠ [] := by
          intro hc
          exact hemp (by rw [hc]; rfl)
        have hA : 1 ≤ s.active_indices.length := List.length_pos.mpr hne
        have hInv' : Inv { s with active_indices := swapRemove s.active_indices (rng.pick t s.active_indices.length) } :=
          ⟨hInv.grid_len, hInv.gw_pos, hInv.gh_pos, hInv.md_pos, hInv.cell_eq,
           hInv.gw_eq, hInv.gh_eq, hInv.pts_box, hInv.grid_some, hInv.pts_grid,
           fun j hj => hInv.active_lt j (swapRemove_subset _ _ j hj)⟩
        have hlen := swapRemove_length s.active_indices
          (rng.pick t s.active_indices.length) hne
        exact ih (t + 1) _ hInv' (by simp only [hlen]; omega)

/-- The seeding loop either leaves the state unchanged or adds exactly one
seed point. -/
theorem seedLoop_cases (contains : Pt → Bool) (rng : Rng) (b : Bounds) :
    ∀ (attempts i : ℕ) (s : Sampler),
      seedLoop contains rng b s i attempts = s ∨
      ∃ k, seedLoop contains rng b s i attempts = s.add_point (seedPoint rng b k) := by
  intro attempts
  induction attempts with
  | zero => intro i s; exact Or.inl rfl
  | succ n ih =>
    intro i s
    rw [seedLoop]
    split
    · exact Or.inr ⟨i, rfl⟩
    · exact ih (i + 1) s

/-- A seed point lies in the closed bounding box when the unit draws lie in
`[0, 1)` and the box is ordered. -/
theorem seedPoint_InBox (rng : Rng) (b : Bounds)
    (hx : b.min_x ≤ b.max_x) (hy : b.min_y ≤ b.max_y)
    (hu : ∀ i, 0 ≤ (rng.seedU i).1 ∧ (rng.seedU i).1 < 1 ∧
      0 ≤ (rng.seedU i).2 ∧ (rng.seedU i).2 < 1) (k : ℕ) :
    InBox b (seedPoint rng b k) := by
  obtain ⟨h1, h2, h3, h4⟩ := hu k
  unfold seedPoint InBox
  refine ⟨?_, ?_, ?_, ?_⟩ <;> simp only
  · nlinarith
  · nlinarith
  · nlinarith
  · nlinarith

/-- **C3.** `generate_distribution` terminates: with the fuel
`2·grid.length + 1` that it passes to the growth loop, the loop always
reaches the empty frontier (each iteration appends a point — and the total
number of acceptable points is bounded by the number of grid cells — or
swap-removes one frontier index), the accepted points never outnumber the
grid cells, and `generate_distribution` returns exactly the points of that
final drained state (or `[]` when seeding failed). -/
theorem claim_c3_termination (contains : Pt → Bool) (rng : Rng)
    (min_distance : ℚ) (b : Bounds) (hd : 0 < min_distance)
    (hx : b.min_x ≤ b.max_x) (hy : b.min_y ≤ b.max_y)
    (hu : ∀ i, 0 ≤ (rng.seedU i).1 ∧ (rng.seedU i).1 < 1 ∧
      0 ≤ (rng.seedU i).2 ∧ (rng.seedU i).2 < 1) :
    (sampleLoop contains rng
        (2 * (seedLoop contains rng b (Sampler.new min_distance b) 0 100).grid.length + 1) 0
        (seedLoop contains rng b (Sampler.new min_distance b) 0 100)).active_indices = [] ∧
    (sampleLoop contains rng
        (2 * (seedLoop contains rng b (Sampler.new min_distance b) 0 100).grid.length + 1) 0
        (seedLoop contains rng b (Sampler.new min_distance b) 0 100)).points.length ≤
      (Sampler.new min_distance b).grid.length ∧
    (generate_distribution contains rng min_distance b = [] ∨
      generate_distribution contains rng min_distance b =
        (sampleLoop contains rng
          (2 * (seedLoop contains rng b (Sampler.new min_distance b) 0 100).grid.length + 1) 0
          (seedLoop contains rng b (Sampler.new min_distance b) 0 100)).points) := by
  have hInv0 := new_Inv min_distance b hd
  have hcap : 1 ≤ (Sampler.new min_distance b).grid.length := by
    rw [hInv0.grid_len]
    exact Nat.mul_pos hInv0.gw_pos hInv0.gh_pos
  have hseed : Inv (seedLoop contains rng b (Sampler.new min_distance b) 0 100) ∧
      (seedLoop contains rng b (Sampler.new min_distance b) 0 100).grid.length =
        (Sampler.new min_distance b).grid.length ∧
      2 * ((seedLoop contains rng b (Sampler.new min_distance b) 0 100).grid.length -
          (seedLoop contains rng b (Sampler.new min_distance b) 0 100).points.length) +
        (seedLoop contains rng b (Sampler.new min_distance b) 0 100).active_indices.length <
        2 * (seedLoop contains rng b (Sampler.new min_distance b) 0 100).grid.length + 1 := by
    rcases seedLoop_cases contains rng b 100 0 (Sampler.new min_distance b) with h1 | ⟨k, h1⟩
    · rw [h1]
      refine ⟨hInv0, rfl, ?_⟩
      have : (Sampler.new min_distance b).points.length = 0 := rfl
      have : (Sampler.new min_distance b).active_indices.length = 0 := rfl
      omega
    · rw [h1]
      have hbox := seedPoint_InBox rng b hx hy hu k
      have hInv1 := add_point_Inv _ hInv0 _ hbox (new_grid_empty min_distance b _)
      refine ⟨hInv1, add_point_grid_length _ _, ?_⟩
      have hp1 : ((Sampler.new min_distance b).add_point (seedPoint rng b k)).points.length
          = 1 := rfl
      have ha1 : ((Sampler.new min_distance b).add_point
          (seedPoint rng b k)).active_indices.length = 1 := rfl
      have hg1 := add_point_grid_length (Sampler.new min_distance b) (seedPoint rng b k)
      rw [hp1, ha1, hg1]
      omega
  obtain ⟨hInv1, hglen, hmeas⟩ := hseed
  have hmain := sampleLoop_empties contains rng
    (2 * (seedLoop contains rng b (Sampler.new min_distance b) 0 100).grid.length + 1) 0
    (seedLoop contains rng b (Sampler.new min_distance b) 0 100) hInv1 hmeas
  refine ⟨hmain.1, ?_, ?_⟩
  · have hle := points_le_capacity _ hmain.2.1
    exact le_trans hle (le_of_eq (by rw [hmain.2.2, hglen]))
  · simp only [generate_distribution]
    split
    · exact Or.inl rfl
    · exact Or.inr rfl

/-- **C3 witness.** The concrete unit-box run: the frontier drains, the
point count is within the 4-cell grid, and the returned list is the drained
state's point list. -/
theorem claim_c3_witness :
    (sampleLoop (fun _ => true) witnessRng
        (2 * (seedLoop (fun _ => true) witnessRng ⟨0, 0, 1, 1⟩
          (Sampler.new 10 ⟨0, 0, 1, 1⟩) 0 100).grid.length + 1) 0
        (seedLoop (fun _ => true) witnessRng ⟨0, 0, 1, 1⟩
          (Sampler.new 10 ⟨0, 0, 1, 1⟩) 0 100)).active_indices = [] ∧
    (sampleLoop (fun _ => true) witnessRng
        (2 * (seedLoop (fun _ => true) witnessRng ⟨0, 0, 1, 1⟩
          (Sampler.new 10 ⟨0, 0, 1, 1⟩) 0 100).grid.length + 1) 0
        (seedLoop (fun _ => true) witnessRng ⟨0, 0, 1, 1⟩
          (Sampler.new 10 ⟨0, 0, 1, 1⟩) 0 100)).points.length ≤
      (Sampler.new 10 ⟨0, 0, 1, 1⟩).grid.length ∧
    (generate_distribution (fun _ => true) witnessRng 10 ⟨0, 0, 1, 1⟩ = [] ∨
      generate_distribution (fun _ => true) witnessRng 10 ⟨0, 0, 1, 1⟩ =
        (sampleLoop (fun _ => true) witnessRng
          (2 * (seedLoop (fun _ => true) witnessRng ⟨0, 0, 1, 1⟩
            (Sampler.new 10 ⟨0, 0, 1, 1⟩) 0 100).grid.length + 1) 0
          (seedLoop (fun _ => true) witnessRng ⟨0, 0, 1, 1⟩
            (Sampler.new 10 ⟨0, 0, 1, 1⟩) 0 100)).points) :=
  claim_c3_termination (fun _ => true) witnessRng 10 ⟨0, 0, 1, 1⟩
    (by norm_num) (by norm_num) (by norm_num)
    (fun i => ⟨le_refl 0, zero_lt_one, le_refl 0, zero_lt_one⟩)

end Vegepoly
